import Mathlib

set_option linter.unusedVariables false

/-!
Shallow embedding of the retry/polling utilities of
`src/tests/playwright-utils.ts` (the functions `waitFor` and
`reliableAction`), together with proofs of the behavioural properties the
specification states about them.

Timing model: the single-threaded JavaScript event loop is modelled with a
logical clock in milliseconds.  A `setTimeout`/`sleep` with delay `d`
resumes `max d 1` milliseconds later (Node clamps timer delays below 1ms up
to 1ms).  An awaited call of a caller-supplied verifier or probe is
modelled by its result together with the duration of the call.  When
several timers expire at the same millisecond they fire in registration
order; the per-attempt timeout timer (registered when the polling loop
starts, before any `sleep(verifyInterval)`) therefore fires before a poll
resumption scheduled for the same instant, so a loop iteration whose check
happens `timeout` or more milliseconds after the loop started already sees
`timedout = true`.
-/

namespace PW

/-- Result of one awaited invocation of the caller-supplied `verify`
predicate of `reliableAction`: the promise either rejects (`throws`) or
resolves to a boolean after the given number of milliseconds. -/
inductive VerifyRes : Type where
  | throws : VerifyRes
  | ok : Bool → Nat → VerifyRes
  deriving Repr, DecidableEq

/-- Duration in milliseconds of a verifier call (a rejection is modelled as
immediate; its duration is never used). -/
def VerifyRes.dur : VerifyRes → Nat
  | .throws => 0
  | .ok _ d => d

/-- The verification phase of one attempt of `reliableAction`
(`src/tests/playwright-utils.ts:202-216`): the `async` executor of
`verifyPromise` registers `setTimeout(() => { timedout = true }, timeout)`
and then runs `while (!timedout) { if (await verify()) resolve(true);
await sleep(verifyInterval) }; resolve(false)`.  `T` is the (clamped)
instant at which the timeout timer fires, `v k` the result of the `k`-th
verifier call, `t` the current clock, `j` the number of verifier calls
made so far.  The result is the value `verifyPromise` settles to —
`none` when it never settles, because a verifier rejection escapes the
`async` executor without `resolve` ever being called — paired with the
total number of verifier invocations. -/
def verifyLoop (T vI : Nat) (v : Nat → VerifyRes) (t j : Nat) :
    Option Bool × Nat :=
  if T ≤ t then (some false, j)
  else
    match v j with
    | .throws => (none, j + 1)
    | .ok true _ => (some true, j + 1)
    | .ok false d => verifyLoop T vI v (t + d + max vI 1) (j + 1)
termination_by T - t
decreasing_by
  have h1 : 1 ≤ max vI 1 := Nat.le_max_right vI 1
  omega

/-- Observable outcome of a call to `reliableAction`: normal return,
rethrown action error (the very same value, thrown on the last attempt),
the final `new Error(...)` after exhaustion, or a promise that never
settles. -/
inductive Outcome (E : Type) : Type where
  | success : Outcome E
  | thrown : E → Outcome E
  | exhausted : String → Outcome E
  | hang : Outcome E
  deriving Repr, DecidableEq

/-- Record of one iteration of the attempt loop of `reliableAction`:
whether `action()` rejected, how many times `verify` was invoked, the
value `verifyPromise` resolved to (`none` if the action rejected, so the
verification phase never ran, or if the promise never settled), and the
argument of the trailing `sleep(actionInterval)` when that sleep ran. -/
structure AttemptTrace : Type where
  actionThrew : Bool
  polls : Nat
  vResult : Option Bool
  sleptAfter : Option Nat
  deriving Repr, DecidableEq

/-- Message of the error thrown when all attempts are used up
(`src/tests/playwright-utils.ts:230-232`). -/
def exhaustedMsg (actionName : String) (maxAttempts : Int) : String :=
  "Failed to perform " ++ actionName ++ " after " ++ toString maxAttempts ++
    " attempts"

/-- The attempt loop `for (let i = 0; i < maxAttempts; i++)` of
`reliableAction` (`src/tests/playwright-utils.ts:193-232`).  `action i` is
the result of the action invocation of iteration `i`, `verify i k` the
result of the `k`-th verifier call of iteration `i`, `T = max timeout 1`
the clamped per-attempt verification budget, `n = maxAttempts.toNat` the
number of iterations the loop condition admits.  The `console.debug`
trace, the 50ms settle delay and the sleeps have no observable effect
beyond advancing the clock, which restarts at 0 for each attempt's
verification phase (the timeout timer is registered per attempt).  A
rejection of `action()` is caught by the per-attempt `catch`, which
rethrows it only on the last iteration; the trailing
`sleep(actionInterval)` runs exactly on non-final iterations.  Returns the
outcome and one trace record per iteration entered. -/
def executeLoop {E : Type} (T vI aI : Nat) (actionName : String)
    (maxAttempts : Int) (action : Nat → Except E Unit)
    (verify : Nat → Nat → VerifyRes) (n i : Nat) :
    Outcome E × List AttemptTrace :=
  if _h : i < n then
    match action i with
    | .error e =>
      if i + 1 = n then (.thrown e, [⟨true, 0, none, none⟩])
      else
        let r := executeLoop T vI aI actionName maxAttempts action verify n (i + 1)
        (r.1, ⟨true, 0, none, some aI⟩ :: r.2)
    | .ok _ =>
      let v := verifyLoop T vI (verify i) 0 0
      match v.1 with
      | some true => (.success, [⟨false, v.2, some true, none⟩])
      | some false =>
        let r := executeLoop T vI aI actionName maxAttempts action verify n (i + 1)
        (r.1, ⟨false, v.2, some false, if i + 1 = n then none else some aI⟩ :: r.2)
      | none => (.hang, [⟨false, v.2, none, none⟩])
  else (.exhausted (exhaustedMsg actionName maxAttempts), [])
termination_by n - i
decreasing_by
  all_goals omega

/-- The `RetryOptions` record of `reliableAction`
(`src/tests/playwright-utils.ts:168-174`); every field is optional. -/
structure RetryOptions : Type where
  maxAttempts : Option Int
  actionInterval : Option Nat
  verifyInterval : Option Nat
  timeout : Option Nat
  actionName : Option String
  deriving Repr, DecidableEq

/-- `reliableAction` (`src/tests/playwright-utils.ts:180-233`): applies the
source's defaults (`maxAttempts = 3`, `actionInterval = 100`,
`verifyInterval = 50`, `timeout = 1000`, `actionName = "action"`) and runs
the attempt loop from `i = 0`.  The per-attempt timeout delay is clamped
to at least 1ms by Node, hence `max timeout 1`. -/
def reliableAction {E : Type} (action : Nat → Except E Unit)
    (verify : Nat → Nat → VerifyRes) (options : RetryOptions) :
    Outcome E × List AttemptTrace :=
  executeLoop (max (options.timeout.getD 1000) 1)
    (options.verifyInterval.getD 50) (options.actionInterval.getD 100)
    (options.actionName.getD "action") (options.maxAttempts.getD 3)
    action verify (options.maxAttempts.getD 3).toNat 0

/-- Result of one awaited invocation of the callback of `waitFor`: either
the call rejects with an error, or it resolves to `undefined`/a falsy
value (`ret none`) or to a truthy value (`ret (some v)`), after the given
number of milliseconds. -/
inductive CbRes (E V : Type) : Type where
  | throws : E → Nat → CbRes E V
  | ret : Option V → Nat → CbRes E V
  deriving Repr, DecidableEq

/-- The value held in `lastError` inside `waitFor`: initially
`new Error(errorMessage)` (the fallback, whose message may be absent),
afterwards the most recently caught callback error. -/
inductive WaitErr (E : Type) : Type where
  | fallback : Option String → WaitErr E
  | caught : E → WaitErr E
  deriving Repr, DecidableEq

/-- The polling loop of `waitFor` (`src/tests/playwright-utils.ts:150-162`):
`while (Date.now() < endTime) { try { const response = await cb(); if
(response) return response } catch (e) { lastError = e } await sleep(100) }
throw lastError`.  `T` is the deadline (`endTime` relative to the start),
`cb j` the result of the `j`-th callback invocation, `t` the clock, `j`
the number of calls made so far.  Returns the settlement of the call
(value or thrown error) together with the number of callback
invocations. -/
def waitForLoop {E V : Type} (T : Nat) (cb : Nat → CbRes E V)
    (lastError : WaitErr E) (t j : Nat) : Except (WaitErr E) V × Nat :=
  if T ≤ t then (.error lastError, j)
  else
    match cb j with
    | .throws e d => waitForLoop T cb (.caught e) (t + d + 100) (j + 1)
    | .ret (some v) _ => (.ok v, j + 1)
    | .ret none d => waitForLoop T cb lastError (t + d + 100) (j + 1)
termination_by T - t
decreasing_by
  all_goals omega

/-- `waitFor` (`src/tests/playwright-utils.ts:144-163`): the deadline is
`timeout` milliseconds from the start (source default 5000), `lastError`
starts as the fallback `new Error(errorMessage)`, and polling starts
immediately with zero calls made. -/
def waitFor {E V : Type} (cb : Nat → CbRes E V) (errorMessage : Option String)
    (timeoutOpt : Option Nat) : Except (WaitErr E) V × Nat :=
  waitForLoop (timeoutOpt.getD 5000) cb (.fallback errorMessage) 0 0

/-- Total clock advance caused by `m` consecutive non-confirming verifier
polls starting at poll index `j`: each poll takes its own duration plus
the clamped `sleep vI` that follows it. -/
def pollElapsed (v : Nat → VerifyRes) (vI : Nat) : Nat → Nat → Nat
  | _, 0 => 0
  | j, m + 1 => (v j).dur + max vI 1 + pollElapsed v vI (j + 1) m

/-- The most recent error thrown by the callback among its first `k`
invocations, if any: the non-fallback part of the value `lastError` holds
after `k` iterations of the `waitFor` loop. -/
def lastThrownBefore {E V : Type} (cb : Nat → CbRes E V) : Nat → Option E
  | 0 => none
  | k + 1 =>
    match cb k with
    | .throws e _ => some e
    | .ret _ _ => lastThrownBefore cb k

/-- The error `waitFor` raises when its deadline expires after `k`
callback invocations: the last captured error when one exists, otherwise
the fallback built from the caller-supplied message. -/
def errAfter {E V : Type} (msg : Option String) (cb : Nat → CbRes E V)
    (k : Nat) : WaitErr E :=
  match lastThrownBefore cb k with
  | some e => .caught e
  | none => .fallback msg

/-- The trace record iteration `i` of the attempt loop produces, as a
function of that iteration's action result and verifier behaviour. -/
def attemptEntry {E : Type} (T vI aI : Nat) (action : Nat → Except E Unit)
    (verify : Nat → Nat → VerifyRes) (n i : Nat) : AttemptTrace :=
  match action i with
  | .error _ => ⟨true, 0, none, if i + 1 = n then none else some aI⟩
  | .ok _ =>
    match (verifyLoop T vI (verify i) 0 0).1 with
    | some true => ⟨false, (verifyLoop T vI (verify i) 0 0).2, some true, none⟩
    | some false =>
      ⟨false, (verifyLoop T vI (verify i) 0 0).2, some false,
        if i + 1 = n then none else some aI⟩
    | none => ⟨false, (verifyLoop T vI (verify i) 0 0).2, none, none⟩

/-- The verifier-invocation counter of the polling loop never decreases. -/
theorem verifyLoop_le (T vI : Nat) (v : Nat → VerifyRes) (t j : Nat) :
    j ≤ (verifyLoop T vI v t j).2 := by
  induction t, j using verifyLoop.induct T vI v with
  | case1 t j h => rw [verifyLoop]; simp [h]
  | case2 t j h hm => rw [verifyLoop]; simp [h, hm]
  | case3 t j h a hm => rw [verifyLoop]; simp [h, hm]
  | case4 t j h d hm ih => rw [verifyLoop]; simp [h, hm]; omega

/-- If the polling loop starts before the timeout instant, the verifier is
invoked at least once. -/
theorem verifyLoop_pos (T vI : Nat) (v : Nat → VerifyRes) (t j : Nat)
    (ht : t < T) : j < (verifyLoop T vI v t j).2 := by
  rw [verifyLoop, if_neg (by omega)]
  rcases hm : v j with _ | ⟨b, d⟩
  · simp
  · rcases b with _ | _
    · have := verifyLoop_le T vI v (t + d + max vI 1) (j + 1)
      simpa using by omega
    · simp

/-- Every loop iteration advances the clock by at least one millisecond, so
the number of verifier invocations is bounded by the time left before the
timeout instant. -/
theorem verifyLoop_bound (T vI : Nat) (v : Nat → VerifyRes) (t j : Nat) :
    (verifyLoop T vI v t j).2 ≤ j + (T - t) := by
  induction t, j using verifyLoop.induct T vI v with
  | case1 t j h => rw [verifyLoop]; simp [h]
  | case2 t j h hm => rw [verifyLoop]; simp [h, hm]; omega
  | case3 t j h a hm => rw [verifyLoop]; simp [h, hm]; omega
  | case4 t j h d hm ih =>
      rw [verifyLoop]; simp only [if_neg h, hm]
      have h1 : 1 ≤ max vI 1 := Nat.le_max_right vI 1
      omega

/-- `verifyPromise` fails to settle exactly when one of the verifier calls
the loop actually made rejected. -/
theorem verifyLoop_none_iff (T vI : Nat) (v : Nat → VerifyRes) (t j : Nat) :
    (verifyLoop T vI v t j).1 = none ↔
      ∃ x, j ≤ x ∧ x < (verifyLoop T vI v t j).2 ∧ v x = .throws := by
  induction t, j using verifyLoop.induct T vI v with
  | case1 t j h =>
      rw [verifyLoop]; simp only [if_pos h]
      constructor
      · intro hc; cases hc
      · rintro ⟨x, hx1, hx2, -⟩; omega
  | case2 t j h hm =>
      rw [verifyLoop]; simp only [if_neg h, hm]
      constructor
      · intro _; exact ⟨j, le_rfl, Nat.lt_succ_self j, hm⟩
      · intro _; trivial
  | case3 t j h a hm =>
      rw [verifyLoop]; simp only [if_neg h, hm]
      constructor
      · intro hc; cases hc
      · rintro ⟨x, hx1, hx2, hx3⟩
        have : x = j := by omega
        rw [this, hm] at hx3; cases hx3
  | case4 t j h d hm ih =>
      rw [verifyLoop]; simp only [if_neg h, hm]
      constructor
      · intro hc
        obtain ⟨x, hx1, hx2, hx3⟩ := ih.mp hc
        exact ⟨x, by omega, hx2, hx3⟩
      · rintro ⟨x, hx1, hx2, hx3⟩
        refine ih.mpr ⟨x, ?_, hx2, hx3⟩
        rcases Nat.eq_or_lt_of_le hx1 with rfl | hlt
        · rw [hm] at hx3; cases hx3
        · omega

/-- With a verifier that always resolves to `false`, the polling loop
resolves `verifyPromise` to `false`, having invoked the verifier at least
once when the loop started before the timeout instant. -/
theorem verifyLoop_all_false (T vI : Nat) (v : Nat → VerifyRes)
    (hv : ∀ k, ∃ d, v k = .ok false d) (t j : Nat) :
    ∃ j2, verifyLoop T vI v t j = (some false, j2) ∧ j ≤ j2 ∧
      (t < T → j < j2) := by
  induction t, j using verifyLoop.induct T vI v with
  | case1 t j h =>
      refine ⟨j, ?_, le_refl j, fun hc => absurd h (by omega)⟩
      rw [verifyLoop]; simp [h]
  | case2 t j h hm => obtain ⟨d, hd⟩ := hv j; rw [hd] at hm; cases hm
  | case3 t j h b hm => obtain ⟨d, hd⟩ := hv j; rw [hd] at hm; cases hm
  | case4 t j h d hm ih =>
      obtain ⟨j2, h1, h2, h3⟩ := ih
      refine ⟨j2, ?_, by omega, fun _ => by omega⟩
      rw [verifyLoop]; simp only [if_neg h, hm]
      exact h1

/-- If the first `m` verifier polls resolve to `false`, poll `m` resolves
to `true`, and the clock those `m` unsuccessful polls consume stays
strictly below the timeout instant, then the polling loop resolves
`verifyPromise` to `true` with the confirming poll the last verifier
invocation. -/
theorem verifyLoop_first_true (T vI : Nat) (v : Nat → VerifyRes) :
    ∀ m t j, (∀ x, x < m → ∃ d, v (j + x) = .ok false d) →
      (∃ d, v (j + m) = .ok true d) →
      t + pollElapsed v vI j m < T →
      verifyLoop T vI v t j = (some true, j + m + 1) := by
  intro m
  induction m with
  | zero =>
      intro t j _ ht htime
      obtain ⟨d, hd⟩ := ht
      simp only [pollElapsed, Nat.add_zero] at htime hd
      rw [verifyLoop, if_neg (by omega), hd]
  | succ m ih =>
      intro t j hfalse htrue htime
      obtain ⟨d, hd⟩ := hfalse 0 (Nat.succ_pos m)
      simp only [Nat.add_zero] at hd
      simp only [pollElapsed] at htime
      have hdur : (v j).dur = d := by rw [hd]; rfl
      rw [verifyLoop, if_neg (by omega)]
      simp only [hd]
      have hstep := ih (t + d + max vI 1) (j + 1)
        (fun x hx => by
          have hx2 := hfalse (x + 1) (by omega)
          rw [show j + (x + 1) = j + 1 + x from by omega] at hx2
          exact hx2)
        (by
          obtain ⟨d2, hd2⟩ := htrue
          exact ⟨d2, by rw [show j + 1 + m = j + (m + 1) from by omega]; exact hd2⟩)
        (by rw [hdur] at htime; omega)
      rw [hstep]
      congr 1
      omega

/-- With an action that always succeeds and a verifier that always
resolves to `false`, the attempt loop runs every remaining iteration,
invokes the verifier at least once per iteration, never records an action
failure, and ends with the exhaustion error. -/
theorem executeLoop_all_false {E : Type} (T vI aI : Nat) (aName : String)
    (mA : Int) (action : Nat → Except E Unit)
    (verify : Nat → Nat → VerifyRes) (n : Nat) (hT : 0 < T)
    (ha : ∀ i, action i = .ok ())
    (hv : ∀ i k, ∃ d, verify i k = .ok false d) (i : Nat) :
    (executeLoop T vI aI aName mA action verify n i).1 =
        .exhausted (exhaustedMsg aName mA) ∧
      (executeLoop T vI aI aName mA action verify n i).2.length = n - i ∧
      ∀ r0 ∈ (executeLoop T vI aI aName mA action verify n i).2,
        1 ≤ r0.polls ∧ r0.actionThrew = false := by
  induction i using executeLoop.induct T vI aI aName mA action verify n with
  | case1 x hx e he hlast => rw [ha x] at he; cases he
  | case2 x hx e he hlast ih => rw [ha x] at he; cases he
  | case3 x hx u hae v hEq =>
      have hv2 : (verifyLoop T vI (verify x) 0 0).1 = some true := hEq
      obtain ⟨j2, hj2, -, -⟩ := verifyLoop_all_false T vI (verify x) (hv x) 0 0
      rw [hj2] at hv2
      simp at hv2
  | case4 x hx u hae v hEq ih =>
      obtain ⟨hout, hlen, hmem⟩ := ih
      obtain ⟨j2, hj2, -, hpos⟩ := verifyLoop_all_false T vI (verify x) (hv x) 0 0
      rw [executeLoop, dif_pos hx]
      simp only [ha x, hj2]
      refine ⟨hout, ?_, ?_⟩
      · simp only [List.length_cons]
        omega
      · intro r0 hr0
        rcases List.mem_cons.mp hr0 with rfl | hr
        · exact ⟨hpos hT, rfl⟩
        · exact hmem r0 hr
  | case5 x hx u hae v hEq =>
      have hv2 : (verifyLoop T vI (verify x) 0 0).1 = none := hEq
      obtain ⟨j2, hj2, -, -⟩ := verifyLoop_all_false T vI (verify x) (hv x) 0 0
      rw [hj2] at hv2
      simp at hv2
  | case6 x hnx =>
      rw [executeLoop, dif_neg hnx]
      refine ⟨rfl, ?_, by simp⟩
      simp only [List.length_nil]
      omega

/-- With an action that throws on every invocation, the attempt loop runs
every remaining iteration (swallowing the failures), never invokes the
verifier, and rethrows the error of the final invocation itself. -/
theorem executeLoop_all_throw {E : Type} (T vI aI : Nat) (aName : String)
    (mA : Int) (action : Nat → Except E Unit)
    (verify : Nat → Nat → VerifyRes) (n : Nat)
    (ha : ∀ i, ∃ e, action i = .error e) (i : Nat) :
    i < n →
      (∀ e, action (n - 1) = .error e →
        (executeLoop T vI aI aName mA action verify n i).1 = .thrown e) ∧
      (executeLoop T vI aI aName mA action verify n i).2.length = n - i ∧
      ∀ r0 ∈ (executeLoop T vI aI aName mA action verify n i).2,
        r0.actionThrew = true ∧ r0.polls = 0 := by
  induction i using executeLoop.induct T vI aI aName mA action verify n with
  | case1 x hx e he hlast =>
      intro _
      rw [executeLoop, dif_pos hx]
      simp only [he, if_pos hlast]
      refine ⟨?_, by simp; omega, ?_⟩
      · intro e2 he2
        rw [show n - 1 = x from by omega, he] at he2
        injection he2 with h3
        rw [h3]
      · intro r0 hr0
        rcases List.mem_singleton.mp hr0 with rfl
        exact ⟨rfl, rfl⟩
  | case2 x hx e he hlast ih =>
      intro _
      obtain ⟨hout, hlen, hmem⟩ := ih (by omega)
      rw [executeLoop, dif_pos hx]
      simp only [he, if_neg hlast]
      refine ⟨hout, ?_, ?_⟩
      · simp only [List.length_cons]
        omega
      · intro r0 hr0
        rcases List.mem_cons.mp hr0 with rfl | hr
        · exact ⟨rfl, rfl⟩
        · exact hmem r0 hr
  | case3 x hx u hae v hEq =>
      obtain ⟨e, he⟩ := ha x
      rw [hae] at he
      cases he
  | case4 x hx u hae v hEq ih =>
      obtain ⟨e, he⟩ := ha x
      rw [hae] at he
      cases he
  | case5 x hx u hae v hEq =>
      obtain ⟨e, he⟩ := ha x
      rw [hae] at he
      cases he
  | case6 x hnx =>
      intro hc
      exact absurd hc hnx

/-- If actions never throw, the verifier of every iteration before `a`
always resolves to `false`, and iteration `a`'s verification phase
resolves `verifyPromise` to `true` after `p` verifier invocations, then
the attempt loop started at any `i ≤ a` returns success, runs exactly the
iterations `i..a`, and the last trace record is the confirming one. -/
theorem executeLoop_confirm_at {E : Type} (T vI aI : Nat) (aName : String)
    (mA : Int) (action : Nat → Except E Unit)
    (verify : Nat → Nat → VerifyRes) (n a p : Nat) (hn : a < n)
    (ha : ∀ i, action i = .ok ())
    (hearly : ∀ i, i < a → ∀ k, ∃ d, verify i k = .ok false d)
    (hconf : verifyLoop T vI (verify a) 0 0 = (some true, p)) (i : Nat) :
    i ≤ a →
      (executeLoop T vI aI aName mA action verify n i).1 = .success ∧
      (executeLoop T vI aI aName mA action verify n i).2.length = a + 1 - i ∧
      ∃ pre, (executeLoop T vI aI aName mA action verify n i).2 =
        pre ++ [⟨false, p, some true, none⟩] := by
  induction i using executeLoop.induct T vI aI aName mA action verify n with
  | case1 x hx e he hlast => rw [ha x] at he; cases he
  | case2 x hx e he hlast ih => rw [ha x] at he; cases he
  | case3 x hx u hae v hEq =>
      intro hxa
      have hv2 : (verifyLoop T vI (verify x) 0 0).1 = some true := hEq
      rcases Nat.lt_or_ge x a with hlt | hge
      · obtain ⟨j2, hj2, -, -⟩ :=
          verifyLoop_all_false T vI (verify x) (hearly x hlt) 0 0
        rw [hj2] at hv2
        simp at hv2
      · have hxe : x = a := by omega
        subst hxe
        rw [executeLoop, dif_pos hx]
        simp only [ha x, hconf]
        refine ⟨trivial, ?_, ⟨[], ?_⟩⟩
        · simp only [List.length_singleton]
          omega
        · simp
  | case4 x hx u hae v hEq ih =>
      intro hxa
      have hv2 : (verifyLoop T vI (verify x) 0 0).1 = some false := hEq
      rcases Nat.lt_or_ge x a with hlt | hge
      · obtain ⟨hout, hlen, pre, hpre⟩ := ih (by omega)
        obtain ⟨j2, hj2, -, -⟩ :=
          verifyLoop_all_false T vI (verify x) (hearly x hlt) 0 0
        rw [executeLoop, dif_pos hx]
        simp only [ha x, hj2]
        refine ⟨hout, ?_, ?_⟩
        · simp only [List.length_cons]
          omega
        · exact ⟨⟨false, j2, some false, if x + 1 = n then none else some aI⟩ :: pre,
            by rw [hpre]; simp⟩
      · have hxe : x = a := by omega
        subst hxe
        rw [hconf] at hv2
        simp at hv2
  | case5 x hx u hae v hEq =>
      intro hxa
      have hv2 : (verifyLoop T vI (verify x) 0 0).1 = none := hEq
      rcases Nat.lt_or_ge x a with hlt | hge
      · obtain ⟨j2, hj2, -, -⟩ :=
          verifyLoop_all_false T vI (verify x) (hearly x hlt) 0 0
        rw [hj2] at hv2
        simp at hv2
      · have hxe : x = a := by omega
        subst hxe
        rw [hconf] at hv2
        simp at hv2
  | case6 x hnx =>
      intro hxa
      omega

/-- The verifier-invocation count of any attempt record is bounded by the
timeout instant of the verification phase: every poll-loop iteration
advances the clock by at least one millisecond. -/
theorem attemptEntry_polls_le {E : Type} (T vI aI : Nat)
    (action : Nat → Except E Unit) (verify : Nat → Nat → VerifyRes)
    (n i : Nat) : (attemptEntry T vI aI action verify n i).polls ≤ T := by
  have hb := verifyLoop_bound T vI (verify i) 0 0
  unfold attemptEntry
  rcases ha : action i with e | u
  · simp
  · rcases hv : (verifyLoop T vI (verify i) 0 0).1 with _ | b
    · simp
      omega
    · rcases b with _ | _
      · simp
        omega
      · simp
        omega

/-- An attempt record whose trailing `sleep(actionInterval)` ran comes
from an iteration whose outcome was either a swallowed action failure or a
`verifyPromise` that resolved to `false`. -/
theorem attemptEntry_slept {E : Type} (T vI aI : Nat)
    (action : Nat → Except E Unit) (verify : Nat → Nat → VerifyRes)
    (n i : Nat)
    (hs : (attemptEntry T vI aI action verify n i).sleptAfter = some aI) :
    (attemptEntry T vI aI action verify n i).actionThrew = true ∨
      (attemptEntry T vI aI action verify n i).vResult = some false := by
  unfold attemptEntry at hs ⊢
  rcases ha : action i with e | u
  · exact Or.inl rfl
  · rcases hv : (verifyLoop T vI (verify i) 0 0).1 with _ | b
    · simp [ha, hv] at hs
    · rcases b with _ | _
      · simp only [hv]
        exact Or.inr trivial
      · simp [ha, hv] at hs

/-- The attempt loop enters at most `n - i` iterations. -/
theorem executeLoop_len {E : Type} (T vI aI : Nat) (aName : String)
    (mA : Int) (action : Nat → Except E Unit)
    (verify : Nat → Nat → VerifyRes) (n i : Nat) :
    (executeLoop T vI aI aName mA action verify n i).2.length ≤ n - i := by
  induction i using executeLoop.induct T vI aI aName mA action verify n with
  | case1 x hx e he hlast =>
      rw [executeLoop, dif_pos hx]
      simp only [he, if_pos hlast, List.length_singleton]
      omega
  | case2 x hx e he hlast ih =>
      rw [executeLoop, dif_pos hx]
      simp only [he, if_neg hlast, List.length_cons]
      omega
  | case3 x hx u hae v hEq =>
      have hv2 : (verifyLoop T vI (verify x) 0 0).1 = some true := hEq
      rw [executeLoop, dif_pos hx]
      simp only [hae, hv2, List.length_singleton]
      omega
  | case4 x hx u hae v hEq ih =>
      have hv2 : (verifyLoop T vI (verify x) 0 0).1 = some false := hEq
      rw [executeLoop, dif_pos hx]
      simp only [hae, hv2, List.length_cons]
      omega
  | case5 x hx u hae v hEq =>
      have hv2 : (verifyLoop T vI (verify x) 0 0).1 = none := hEq
      rw [executeLoop, dif_pos hx]
      simp only [hae, hv2, List.length_singleton]
      omega
  | case6 x hnx =>
      rw [executeLoop, dif_neg hnx]
      simp

/-- If the loop condition admits iteration `i`, that iteration is entered
and recorded. -/
theorem executeLoop_len_pos {E : Type} (T vI aI : Nat) (aName : String)
    (mA : Int) (action : Nat → Except E Unit)
    (verify : Nat → Nat → VerifyRes) (n i : Nat) (hx : i < n) :
    0 < (executeLoop T vI aI aName mA action verify n i).2.length := by
  rw [executeLoop, dif_pos hx]
  rcases ha : action i with e | u
  · by_cases hl : i + 1 = n <;> simp [hl]
  · rcases hv : (verifyLoop T vI (verify i) 0 0).1 with _ | b
    · simp [hv]
    · rcases b with _ | _ <;> simp [hv]

/-- Record `rel` of the trace of the attempt loop started at `i` is the
record of iteration `i + rel`, fully determined by that iteration's action
result and verifier behaviour. -/
theorem executeLoop_get {E : Type} (T vI aI : Nat) (aName : String)
    (mA : Int) (action : Nat → Except E Unit)
    (verify : Nat → Nat → VerifyRes) (n i : Nat) :
    ∀ rel, rel < (executeLoop T vI aI aName mA action verify n i).2.length →
      (executeLoop T vI aI aName mA action verify n i).2.get? rel =
        some (attemptEntry T vI aI action verify n (i + rel)) := by
  induction i using executeLoop.induct T vI aI aName mA action verify n with
  | case1 x hx e he hlast =>
      intro rel h
      rw [executeLoop, dif_pos hx] at h ⊢
      simp only [he, if_pos hlast] at h ⊢
      rcases rel with _ | rel
      · unfold attemptEntry
        simp [he, hlast]
      · simp at h
  | case2 x hx e he hlast ih =>
      intro rel h
      rw [executeLoop, dif_pos hx] at h ⊢
      simp only [he, if_neg hlast] at h ⊢
      rcases rel with _ | rel
      · unfold attemptEntry
        simp [he, hlast]
      · simp only [List.length_cons] at h
        rw [List.get?_cons_succ, ih rel (by omega)]
        congr 2
        omega
  | case3 x hx u hae v hEq =>
      intro rel h
      have hv2 : (verifyLoop T vI (verify x) 0 0).1 = some true := hEq
      rw [executeLoop, dif_pos hx] at h ⊢
      simp only [hae, hv2] at h ⊢
      rcases rel with _ | rel
      · unfold attemptEntry
        simp [hae, hv2]
      · simp at h
  | case4 x hx u hae v hEq ih =>
      intro rel h
      have hv2 : (verifyLoop T vI (verify x) 0 0).1 = some false := hEq
      rw [executeLoop, dif_pos hx] at h ⊢
      simp only [hae, hv2] at h ⊢
      rcases rel with _ | rel
      · unfold attemptEntry
        simp [hae, hv2]
      · simp only [List.length_cons] at h
        rw [List.get?_cons_succ, ih rel (by omega)]
        congr 2
        omega
  | case5 x hx u hae v hEq =>
      intro rel h
      have hv2 : (verifyLoop T vI (verify x) 0 0).1 = none := hEq
      rw [executeLoop, dif_pos hx] at h ⊢
      simp only [hae, hv2] at h ⊢
      rcases rel with _ | rel
      · unfold attemptEntry
        simp [hae, hv2]
      · simp at h
  | case6 x hnx =>
      intro rel h
      rw [executeLoop, dif_neg hnx] at h
      simp at h

/-- Iteration `i + rel + 1` is entered exactly when iteration `i + rel`
was entered and ran its trailing `sleep(actionInterval)` — that is, its
outcome (a swallowed action failure or an unconfirmed verification) was
determined first and it was not the final admissible iteration. -/
theorem executeLoop_cont {E : Type} (T vI aI : Nat) (aName : String)
    (mA : Int) (action : Nat → Except E Unit)
    (verify : Nat → Nat → VerifyRes) (n i : Nat) :
    ∀ rel, rel + 1 < (executeLoop T vI aI aName mA action verify n i).2.length ↔
      (rel < (executeLoop T vI aI aName mA action verify n i).2.length ∧
        (attemptEntry T vI aI action verify n (i + rel)).sleptAfter = some aI) := by
  induction i using executeLoop.induct T vI aI aName mA action verify n with
  | case1 x hx e he hlast =>
      intro rel
      rw [executeLoop, dif_pos hx]
      simp only [he, if_pos hlast, List.length_singleton]
      constructor
      · intro hc
        omega
      · rintro ⟨h1, h2⟩
        have hrel : rel = 0 := by omega
        subst hrel
        rw [Nat.add_zero] at h2
        unfold attemptEntry at h2
        simp [he, hlast] at h2
  | case2 x hx e he hlast ih =>
      intro rel
      rw [executeLoop, dif_pos hx]
      simp only [he, if_neg hlast, List.length_cons]
      have hpos :=
        executeLoop_len_pos T vI aI aName mA action verify n (x + 1) (by omega)
      rcases rel with _ | rel
      · constructor
        · intro _
          refine ⟨by omega, ?_⟩
          rw [Nat.add_zero]
          unfold attemptEntry
          simp [he, hlast]
        · intro _
          omega
      · constructor
        · intro hc
          have hih := (ih rel).mp (by omega)
          refine ⟨by omega, ?_⟩
          rw [show x + (rel + 1) = x + 1 + rel from by omega]
          exact hih.2
        · rintro ⟨h1, h2⟩
          rw [show x + (rel + 1) = x + 1 + rel from by omega] at h2
          have hih := (ih rel).mpr ⟨by omega, h2⟩
          omega
  | case3 x hx u hae v hEq =>
      intro rel
      have hv2 : (verifyLoop T vI (verify x) 0 0).1 = some true := hEq
      rw [executeLoop, dif_pos hx]
      simp only [hae, hv2, List.length_singleton]
      constructor
      · intro hc
        omega
      · rintro ⟨h1, h2⟩
        have hrel : rel = 0 := by omega
        subst hrel
        rw [Nat.add_zero] at h2
        unfold attemptEntry at h2
        simp [hae, hv2] at h2
  | case4 x hx u hae v hEq ih =>
      intro rel
      have hv2 : (verifyLoop T vI (verify x) 0 0).1 = some false := hEq
      rw [executeLoop, dif_pos hx]
      simp only [hae, hv2, List.length_cons]
      by_cases hne : x + 1 = n
      · have hzero :
            (executeLoop T vI aI aName mA action verify n (x + 1)).2.length = 0 := by
          have := executeLoop_len T vI aI aName mA action verify n (x + 1)
          omega
        constructor
        · intro hc
          omega
        · rintro ⟨h1, h2⟩
          have hrel : rel = 0 := by omega
          subst hrel
          rw [Nat.add_zero] at h2
          unfold attemptEntry at h2
          simp [hae, hv2, hne] at h2
      · have hpos :=
          executeLoop_len_pos T vI aI aName mA action verify n (x + 1) (by omega)
        rcases rel with _ | rel
        · constructor
          · intro _
            refine ⟨by omega, ?_⟩
            rw [Nat.add_zero]
            unfold attemptEntry
            simp [hae, hv2, hne]
          · intro _
            omega
        · constructor
          · intro hc
            have hih := (ih rel).mp (by omega)
            refine ⟨by omega, ?_⟩
            rw [show x + (rel + 1) = x + 1 + rel from by omega]
            exact hih.2
          · rintro ⟨h1, h2⟩
            rw [show x + (rel + 1) = x + 1 + rel from by omega] at h2
            have hih := (ih rel).mpr ⟨by omega, h2⟩
            omega
  | case5 x hx u hae v hEq =>
      intro rel
      have hv2 : (verifyLoop T vI (verify x) 0 0).1 = none := hEq
      rw [executeLoop, dif_pos hx]
      simp only [hae, hv2, List.length_singleton]
      constructor
      · intro hc
        omega
      · rintro ⟨h1, h2⟩
        have hrel : rel = 0 := by omega
        subst hrel
        rw [Nat.add_zero] at h2
        unfold attemptEntry at h2
        simp [hae, hv2] at h2
  | case6 x hnx =>
      intro rel
      rw [executeLoop, dif_neg hnx]
      simp only [List.length_nil]
      constructor
      · intro hc
        omega
      · rintro ⟨h1, -⟩
        omega

/-- The attempt loop fails to settle exactly when one of the iterations it
entered had a successful action invocation whose verification phase never
settled (the verifier rejected during polling). -/
theorem executeLoop_hang_iff {E : Type} (T vI aI : Nat) (aName : String)
    (mA : Int) (action : Nat → Except E Unit)
    (verify : Nat → Nat → VerifyRes) (n i : Nat) :
    (executeLoop T vI aI aName mA action verify n i).1 = .hang ↔
      ∃ rel, rel < (executeLoop T vI aI aName mA action verify n i).2.length ∧
        action (i + rel) = .ok () ∧
        (verifyLoop T vI (verify (i + rel)) 0 0).1 = none := by
  induction i using executeLoop.induct T vI aI aName mA action verify n with
  | case1 x hx e he hlast =>
      rw [executeLoop, dif_pos hx]
      simp only [he, if_pos hlast, List.length_singleton]
      constructor
      · intro hc
        cases hc
      · rintro ⟨rel, h1, h2, h3⟩
        have hrel : rel = 0 := by omega
        subst hrel
        rw [Nat.add_zero, he] at h2
        cases h2
  | case2 x hx e he hlast ih =>
      rw [executeLoop, dif_pos hx]
      simp only [he, if_neg hlast, List.length_cons]
      constructor
      · intro hc
        obtain ⟨rel, h1, h2, h3⟩ := ih.mp hc
        refine ⟨rel + 1, by omega, ?_, ?_⟩
        · rw [show x + (rel + 1) = x + 1 + rel from by omega]
          exact h2
        · rw [show x + (rel + 1) = x + 1 + rel from by omega]
          exact h3
      · rintro ⟨rel, h1, h2, h3⟩
        rcases rel with _ | rel
        · rw [Nat.add_zero, he] at h2
          cases h2
        · refine ih.mpr ⟨rel, by omega, ?_, ?_⟩
          · rw [show x + 1 + rel = x + (rel + 1) from by omega]
            exact h2
          · rw [show x + 1 + rel = x + (rel + 1) from by omega]
            exact h3
  | case3 x hx u hae v hEq =>
      have hv2 : (verifyLoop T vI (verify x) 0 0).1 = some true := hEq
      rw [executeLoop, dif_pos hx]
      simp only [hae, hv2, List.length_singleton]
      constructor
      · intro hc
        cases hc
      · rintro ⟨rel, h1, h2, h3⟩
        have hrel : rel = 0 := by omega
        subst hrel
        rw [Nat.add_zero, hv2] at h3
        cases h3
  | case4 x hx u hae v hEq ih =>
      have hv2 : (verifyLoop T vI (verify x) 0 0).1 = some false := hEq
      rw [executeLoop, dif_pos hx]
      simp only [hae, hv2, List.length_cons]
      constructor
      · intro hc
        obtain ⟨rel, h1, h2, h3⟩ := ih.mp hc
        refine ⟨rel + 1, by omega, ?_, ?_⟩
        · rw [show x + (rel + 1) = x + 1 + rel from by omega]
          exact h2
        · rw [show x + (rel + 1) = x + 1 + rel from by omega]
          exact h3
      · rintro ⟨rel, h1, h2, h3⟩
        rcases rel with _ | rel
        · rw [Nat.add_zero, hv2] at h3
          cases h3
        · refine ih.mpr ⟨rel, by omega, ?_, ?_⟩
          · rw [show x + 1 + rel = x + (rel + 1) from by omega]
            exact h2
          · rw [show x + 1 + rel = x + (rel + 1) from by omega]
            exact h3
  | case5 x hx u hae v hEq =>
      have hv2 : (verifyLoop T vI (verify x) 0 0).1 = none := hEq
      cases u
      rw [executeLoop, dif_pos hx]
      simp only [hae, hv2, List.length_singleton]
      constructor
      · intro _
        refine ⟨0, by omega, ?_, ?_⟩
        · rw [Nat.add_zero]
          exact hae
        · rw [Nat.add_zero]
          exact hv2
      · intro _
        trivial
  | case6 x hnx =>
      rw [executeLoop, dif_neg hnx]
      simp only [List.length_nil]
      constructor
      · intro hc
        cases hc
      · rintro ⟨rel, h1, -⟩
        omega

/-- An iteration whose action invocation rejected never invokes the
verifier. -/
theorem attemptEntry_polls_error {E : Type} (T vI aI : Nat)
    (action : Nat → Except E Unit) (verify : Nat → Nat → VerifyRes)
    (n i : Nat) (e : E) (he : action i = .error e) :
    (attemptEntry T vI aI action verify n i).polls = 0 := by
  unfold attemptEntry
  simp [he]

/-- An iteration whose action invocation succeeded invokes the verifier
exactly as many times as its verification phase does. -/
theorem attemptEntry_polls_ok {E : Type} (T vI aI : Nat)
    (action : Nat → Except E Unit) (verify : Nat → Nat → VerifyRes)
    (n i : Nat) (hok : action i = .ok ()) :
    (attemptEntry T vI aI action verify n i).polls =
      (verifyLoop T vI (verify i) 0 0).2 := by
  unfold attemptEntry
  simp only [hok]
  rcases hv : (verifyLoop T vI (verify i) 0 0).1 with _ | b
  · simp [hv]
  · rcases b with _ | _ <;> simp [hv]

/-- A callback invocation that returns (rather than throws) leaves the
captured-error state unchanged. -/
theorem lastThrownBefore_ret {E V : Type} (cb : Nat → CbRes E V) (j d : Nat)
    (o : Option V) (hcb : cb j = .ret o d) :
    lastThrownBefore cb (j + 1) = lastThrownBefore cb j := by
  simp only [lastThrownBefore, hcb]

/-- A throwing callback invocation replaces the captured error. -/
theorem lastThrownBefore_throws {E V : Type} (cb : Nat → CbRes E V)
    (j d : Nat) (e : E) (hcb : cb j = .throws e d) :
    lastThrownBefore cb (j + 1) = some e := by
  simp only [lastThrownBefore, hcb]

/-- Invariant of the `waitFor` loop: if `lastError` currently holds the
error determined by the calls made so far (fallback when none threw, the
most recent thrown error otherwise), then whenever the loop ends by
throwing, the thrown error is the one determined by all calls made. -/
theorem waitForLoop_error {E V : Type} (T : Nat) (cb : Nat → CbRes E V)
    (msg : Option String) :
    ∀ t j lastError, lastError = errAfter msg cb j →
      ∀ err, (waitForLoop T cb lastError t j).1 = .error err →
        err = errAfter msg cb (waitForLoop T cb lastError t j).2 := by
  intro t j lastError
  induction lastError, t, j using waitForLoop.induct T cb with
  | case1 le t j h =>
      intro hinv err herr
      rw [waitForLoop, if_pos h] at herr ⊢
      injection herr with h2
      rw [← h2]
      exact hinv
  | case2 le t j h e d hcb ih =>
      intro hinv err herr
      rw [waitForLoop, if_neg h] at herr ⊢
      simp only [hcb] at herr ⊢
      refine ih ?_ err herr
      unfold errAfter
      rw [lastThrownBefore_throws cb j d e hcb]
  | case3 le t j h v0 d hcb =>
      intro hinv err herr
      rw [waitForLoop, if_neg h] at herr
      simp only [hcb] at herr
      cases herr
  | case4 le t j h d hcb ih =>
      intro hinv err herr
      rw [waitForLoop, if_neg h] at herr ⊢
      simp only [hcb] at herr ⊢
      refine ih ?_ err herr
      rw [hinv]
      unfold errAfter
      rw [lastThrownBefore_ret cb j d none hcb]

/-- C1: For every policy with a positive attempt budget and every action
that never throws, if the verifier never returns true (every call resolves
to `false`), `reliableAction` performs exactly `maxAttempts` action
invocations (one per recorded attempt, and the trace has `maxAttempts`
records), polls the verifier at least once in every attempt, and then
fails with the retry-exhaustion error carrying the action name and the
attempt count; no attempt records an action error, so the call never
fails via an action error. -/
theorem c1_exhausted_after_max_attempts {E : Type}
    (action : Nat → Except E Unit) (verify : Nat → Nat → VerifyRes)
    (options : RetryOptions)
    (hA : 1 ≤ options.maxAttempts.getD 3)
    (ha : ∀ i, action i = .ok ())
    (hv : ∀ i k, ∃ d, verify i k = .ok false d) :
    (reliableAction action verify options).1 =
        .exhausted (exhaustedMsg (options.actionName.getD "action")
          (options.maxAttempts.getD 3)) ∧
      (reliableAction action verify options).2.length =
        (options.maxAttempts.getD 3).toNat ∧
      ∀ r0 ∈ (reliableAction action verify options).2,
        1 ≤ r0.polls ∧ r0.actionThrew = false := by
  unfold reliableAction
  have h := executeLoop_all_false (max (options.timeout.getD 1000) 1)
    (options.verifyInterval.getD 50) (options.actionInterval.getD 100)
    (options.actionName.getD "action") (options.maxAttempts.getD 3)
    action verify (options.maxAttempts.getD 3).toNat
    (Nat.lt_of_lt_of_le Nat.one_pos (Nat.le_max_right _ 1)) ha hv 0
  simpa using h

/-- C1 witness: the default policy (three attempts), an action that always
succeeds and a verifier that always resolves to `false`. -/
theorem c1_exhausted_after_max_attempts_witness :
    (reliableAction (fun _ => (.ok () : Except Nat Unit))
        (fun _ _ => .ok false 0) ⟨none, none, none, none, none⟩).1 =
        .exhausted (exhaustedMsg "action" 3) ∧
      (reliableAction (fun _ => (.ok () : Except Nat Unit))
        (fun _ _ => .ok false 0) ⟨none, none, none, none, none⟩).2.length = 3 ∧
      ∀ r0 ∈ (reliableAction (fun _ => (.ok () : Except Nat Unit))
        (fun _ _ => .ok false 0) ⟨none, none, none, none, none⟩).2,
        1 ≤ r0.polls ∧ r0.actionThrew = false :=
  c1_exhausted_after_max_attempts (fun _ => .ok ()) (fun _ _ => .ok false 0)
    ⟨none, none, none, none, none⟩ (by decide) (fun _ => rfl)
    (fun _ _ => ⟨0, rfl⟩)

/-- C2: For every policy with a positive attempt budget and every action
that throws on every invocation, `reliableAction` invokes the action
exactly `maxAttempts` times (the trace has `maxAttempts` records, each an
action failure with zero verifier polls) and then throws the very error
value raised by the final action invocation, unwrapped. -/
theorem c2_final_action_error_rethrown {E : Type}
    (action : Nat → Except E Unit) (verify : Nat → Nat → VerifyRes)
    (options : RetryOptions) (e : E)
    (hA : 1 ≤ options.maxAttempts.getD 3)
    (ha : ∀ i, ∃ e2, action i = .error e2)
    (he : action ((options.maxAttempts.getD 3).toNat - 1) = .error e) :
    (reliableAction action verify options).1 = .thrown e ∧
      (reliableAction action verify options).2.length =
        (options.maxAttempts.getD 3).toNat ∧
      ∀ r0 ∈ (reliableAction action verify options).2,
        r0.actionThrew = true ∧ r0.polls = 0 := by
  unfold reliableAction
  have hn : 0 < (options.maxAttempts.getD 3).toNat := by omega
  obtain ⟨h1, h2, h3⟩ := executeLoop_all_throw
    (max (options.timeout.getD 1000) 1) (options.verifyInterval.getD 50)
    (options.actionInterval.getD 100) (options.actionName.getD "action")
    (options.maxAttempts.getD 3) action verify
    (options.maxAttempts.getD 3).toNat ha 0 hn
  exact ⟨h1 e he, by simpa using h2, h3⟩

/-- C2 witness: the default policy and an action that throws `7` on every
invocation: three recorded attempts, no polls, and `7` is rethrown. -/
theorem c2_final_action_error_rethrown_witness :
    (reliableAction (fun _ => (.error 7 : Except Nat Unit))
        (fun _ _ => .ok false 0) ⟨none, none, none, none, none⟩).1 =
        .thrown 7 ∧
      (reliableAction (fun _ => (.error 7 : Except Nat Unit))
        (fun _ _ => .ok false 0) ⟨none, none, none, none, none⟩).2.length = 3 ∧
      ∀ r0 ∈ (reliableAction (fun _ => (.error 7 : Except Nat Unit))
        (fun _ _ => .ok false 0) ⟨none, none, none, none, none⟩).2,
        r0.actionThrew = true ∧ r0.polls = 0 :=
  c2_final_action_error_rethrown (fun _ => .error 7) (fun _ _ => .ok false 0)
    ⟨none, none, none, none, none⟩ 7 (by decide) (fun _ => ⟨7, rfl⟩) rfl

/-- C3: If actions never throw, the verifier resolves to `false` on every
poll of attempts `0..a-1`, and in attempt `a` (zero-based, with
`a < maxAttempts`, so attempt `k = a + 1` in one-based counting) the
verifier first resolves to `true` on poll `m`, with the clock consumed by
the earlier polls strictly below the per-attempt timeout, then
`reliableAction` returns success after exactly `a + 1` action invocations
— no further attempt is started — and the final attempt's record shows
exactly `m + 1` verifier polls: no verify call is made after the
confirming one. -/
theorem c3_success_on_attempt_k {E : Type} (action : Nat → Except E Unit)
    (verify : Nat → Nat → VerifyRes) (options : RetryOptions) (a m : Nat)
    (hk : a < (options.maxAttempts.getD 3).toNat)
    (ha : ∀ i, action i = .ok ())
    (hearly : ∀ i, i < a → ∀ k, ∃ d, verify i k = .ok false d)
    (hmf : ∀ x, x < m → ∃ d, verify a x = .ok false d)
    (hmt : ∃ d, verify a m = .ok true d)
    (htime : pollElapsed (verify a) (options.verifyInterval.getD 50) 0 m <
      max (options.timeout.getD 1000) 1) :
    (reliableAction action verify options).1 = .success ∧
      (reliableAction action verify options).2.length = a + 1 ∧
      ∃ pre, (reliableAction action verify options).2 =
        pre ++ [⟨false, m + 1, some true, none⟩] := by
  unfold reliableAction
  have hconf : verifyLoop (max (options.timeout.getD 1000) 1)
      (options.verifyInterval.getD 50) (verify a) 0 0 = (some true, m + 1) := by
    have h := verifyLoop_first_true (max (options.timeout.getD 1000) 1)
      (options.verifyInterval.getD 50) (verify a) m 0 0
      (fun x hx => by simpa using hmf x hx) (by simpa using hmt)
      (by simpa using htime)
    simpa using h
  obtain ⟨h1, h2, h3⟩ := executeLoop_confirm_at
    (max (options.timeout.getD 1000) 1) (options.verifyInterval.getD 50)
    (options.actionInterval.getD 100) (options.actionName.getD "action")
    (options.maxAttempts.getD 3) action verify
    (options.maxAttempts.getD 3).toNat a (m + 1) hk ha hearly hconf 0
    (Nat.zero_le a)
  exact ⟨h1, by simpa using h2, h3⟩

/-- C3 witness: default policy; attempt 0 never confirms, attempt 1
confirms on its second poll: success with two action invocations, the last
record showing two polls. -/
theorem c3_success_on_attempt_k_witness :
    (reliableAction (fun _ => (.ok () : Except Nat Unit))
        (fun i k => if i = 0 then .ok false 0
          else if k = 0 then .ok false 0 else .ok true 0)
        ⟨none, none, none, none, none⟩).1 = .success ∧
      (reliableAction (fun _ => (.ok () : Except Nat Unit))
        (fun i k => if i = 0 then .ok false 0
          else if k = 0 then .ok false 0 else .ok true 0)
        ⟨none, none, none, none, none⟩).2.length = 1 + 1 ∧
      ∃ pre, (reliableAction (fun _ => (.ok () : Except Nat Unit))
        (fun i k => if i = 0 then .ok false 0
          else if k = 0 then .ok false 0 else .ok true 0)
        ⟨none, none, none, none, none⟩).2 =
        pre ++ [⟨false, 1 + 1, some true, none⟩] :=
  c3_success_on_attempt_k (fun _ => .ok ())
    (fun i k => if i = 0 then .ok false 0
      else if k = 0 then .ok false 0 else .ok true 0)
    ⟨none, none, none, none, none⟩ 1 1 (by decide) (fun _ => rfl)
    (fun i hi k => ⟨0, by
      have h0 : i = 0 := by omega
      subst h0
      simp⟩)
    (fun x hx => ⟨0, by
      have h0 : x = 0 := by omega
      subst h0
      simp⟩)
    ⟨0, rfl⟩ (by decide)

/-- C4: Every recorded attempt `i` whose action invocation threw has zero
verifier polls — the verifier is only ever polled in attempts whose action
invocation succeeded — and, when `i` is not the final admissible attempt,
its record shows the trailing `sleep(actionInterval)` (the failure was
swallowed, the executor waited `actionInterval`) and attempt `i + 1` was
entered. -/
theorem c4_action_failure_swallowed {E : Type}
    (action : Nat → Except E Unit) (verify : Nat → Nat → VerifyRes)
    (options : RetryOptions) (i : Nat) (e : E)
    (hi : i < (reliableAction action verify options).2.length)
    (he : action i = .error e) :
    (reliableAction action verify options).2.get? i =
        some ⟨true, 0, none,
          if i + 1 = (options.maxAttempts.getD 3).toNat then none
          else some (options.actionInterval.getD 100)⟩ ∧
      (i + 1 < (options.maxAttempts.getD 3).toNat →
        i + 1 < (reliableAction action verify options).2.length) := by
  unfold reliableAction at hi ⊢
  have hg := executeLoop_get (max (options.timeout.getD 1000) 1)
    (options.verifyInterval.getD 50) (options.actionInterval.getD 100)
    (options.actionName.getD "action") (options.maxAttempts.getD 3)
    action verify (options.maxAttempts.getD 3).toNat 0 i hi
  rw [Nat.zero_add] at hg
  constructor
  · rw [hg]
    unfold attemptEntry
    simp [he]
  · intro hlt
    refine (executeLoop_cont (max (options.timeout.getD 1000) 1)
      (options.verifyInterval.getD 50) (options.actionInterval.getD 100)
      (options.actionName.getD "action") (options.maxAttempts.getD 3)
      action verify (options.maxAttempts.getD 3).toNat 0 i).mpr ⟨hi, ?_⟩
    rw [Nat.zero_add]
    unfold attemptEntry
    simp only [he]
    simp [show ¬(i + 1 = (options.maxAttempts.getD 3).toNat) from by omega]

/-- C4 witness: two attempts, action always throws: attempt 0's record
shows a swallowed failure, no polls, the `sleep(100)` pause, and attempt 1
was entered. -/
theorem c4_action_failure_swallowed_witness :
    ((reliableAction (fun i => (.error (i + 40) : Except Nat Unit))
        (fun _ _ => .ok false 0) ⟨some 2, none, none, none, none⟩).2.get? 0 =
      some ⟨true, 0, none, some 100⟩) ∧
      1 < (reliableAction (fun i => (.error (i + 40) : Except Nat Unit))
        (fun _ _ => .ok false 0) ⟨some 2, none, none, none, none⟩).2.length := by
  obtain ⟨h1, h2⟩ := c4_action_failure_swallowed
    (fun i => (.error (i + 40) : Except Nat Unit)) (fun _ _ => .ok false 0)
    ⟨some 2, none, none, none, none⟩ 0 40
    (by simp [reliableAction, executeLoop]) rfl
  constructor
  · simpa using h1
  · simpa using h2 (by decide)

/-- C5: If the verification poll loop began a verifier call before the
timeout instant (`t < T`) and the timeout elapses while that call is
pending (`T ≤ t + d`), yet the call resolves to `true`, the attempt still
resolves as confirmed: the loop checks the predicate's result before
re-consulting the timeout flag, so verification success takes precedence
over the timeout and the attempt is never resolved as not-confirmed. -/
theorem c5_verify_success_beats_timeout (T vI t j d : Nat)
    (v : Nat → VerifyRes) (hstart : t < T) (hpend : T ≤ t + d)
    (hres : v j = .ok true d) :
    verifyLoop T vI v t j = (some true, j + 1) := by
  rw [verifyLoop, if_neg (by omega)]
  simp only [hres]

/-- C5 witness: the poll starts at t = 3 with timeout instant 5 and the
verifier call takes 7ms — the timeout fires while it is pending — yet it
returns true, so the attempt is confirmed. -/
theorem c5_verify_success_beats_timeout_witness :
    verifyLoop 5 50 (fun _ => .ok true 7) 3 0 = (some true, 1) :=
  c5_verify_success_beats_timeout 5 50 3 0 7 (fun _ => .ok true 7)
    (by decide) (by decide) rfl

/-- C6: Whenever `waitFor` ends by throwing (its deadline elapsed without
a truthy probe result), the thrown error is `errAfter` of the calls made:
the most recently thrown probe error when at least one invocation threw,
and otherwise the fallback error built from the caller-supplied message. -/
theorem c6_waitFor_error_selection {E V : Type} (cb : Nat → CbRes E V)
    (msg : Option String) (tOpt : Option Nat) (err : WaitErr E)
    (hfail : (waitFor cb msg tOpt).1 = .error err) :
    err = errAfter msg cb (waitFor cb msg tOpt).2 := by
  unfold waitFor at hfail ⊢
  exact waitForLoop_error (tOpt.getD 5000) cb msg 0 0 (.fallback msg) rfl
    err hfail

/-- C6 witness: a probe that always throws (`j`-th call throws `j`), a
150ms timeout and the fixed 100ms polling: the call fails surfacing the
last thrown error `1`, not the fallback message. -/
theorem c6_waitFor_error_selection_witness :
    ((waitFor (fun j => (.throws j 0 : CbRes Nat Unit)) (some "fallback")
        (some 150)).1 = .error (.caught 1)) ∧
      (WaitErr.caught 1 : WaitErr Nat) =
        errAfter (some "fallback") (fun j => (.throws j 0 : CbRes Nat Unit))
          (waitFor (fun j => (.throws j 0 : CbRes Nat Unit)) (some "fallback")
            (some 150)).2 :=
  ⟨by simp [waitFor, waitForLoop],
    c6_waitFor_error_selection (fun j => .throws j 0) (some "fallback")
      (some 150) (.caught 1) (by simp [waitFor, waitForLoop])⟩

/-- C7: A probe that returns no value (undefined) on its first two calls
and a truthy value on its third, when three polls fit strictly within the
deadline (the first call starts at once and each later call starts a
100ms sleep after the previous one ends), makes `waitFor` succeed with
that value — neither the fallback error nor any captured error is
raised. -/
theorem c7_waitFor_third_call_value {E V : Type} (cb : Nat → CbRes E V)
    (msg : Option String) (tOpt : Option Nat) (v0 : V) (d0 d1 d2 : Nat)
    (h0 : cb 0 = .ret none d0) (h1 : cb 1 = .ret none d1)
    (h2 : cb 2 = .ret (some v0) d2)
    (ht : d0 + 100 + (d1 + 100) < tOpt.getD 5000) :
    (waitFor cb msg tOpt).1 = .ok v0 := by
  unfold waitFor
  rw [waitForLoop, if_neg (by omega)]
  simp only [h0, Nat.zero_add]
  rw [waitForLoop, if_neg (by omega)]
  simp only [h1]
  rw [waitForLoop, if_neg (by omega)]
  simp only [h2]

/-- C7 witness: a probe returning undefined twice and then `9`, with the
default 5000ms timeout: `waitFor` returns `9`. -/
theorem c7_waitFor_third_call_value_witness :
    (waitFor
        (fun j => if j < 2 then (.ret none 0 : CbRes Nat Nat)
          else .ret (some 9) 0) (some "never") none).1 = .ok 9 :=
  c7_waitFor_third_call_value
    (fun j => if j < 2 then (.ret none 0 : CbRes Nat Nat) else .ret (some 9) 0)
    (some "never") none 9 0 0 0 rfl rfl rfl (by decide)

/-- C8: In every run of `reliableAction` the trace has at most
`maxAttempts` records — one per attempt entered, each holding that
attempt's single action invocation — each attempt invokes the verifier
zero or more times, bounded by the (clamped) per-attempt timeout, and
attempts are strictly sequential: a record for attempt `i + 1` exists only
when attempt `i`'s outcome was already determined (a swallowed action
failure or an unconfirmed verification). -/
theorem c8_sequential_bounded_attempts {E : Type}
    (action : Nat → Except E Unit) (verify : Nat → Nat → VerifyRes)
    (options : RetryOptions) :
    (reliableAction action verify options).2.length ≤
        (options.maxAttempts.getD 3).toNat ∧
      (∀ i r0, (reliableAction action verify options).2.get? i = some r0 →
        r0.polls ≤ max (options.timeout.getD 1000) 1) ∧
      (∀ i, i + 1 < (reliableAction action verify options).2.length →
        ∃ r0, (reliableAction action verify options).2.get? i = some r0 ∧
          (r0.actionThrew = true ∨ r0.vResult = some false)) := by
  unfold reliableAction
  refine ⟨?_, ?_, ?_⟩
  · have h := executeLoop_len (max (options.timeout.getD 1000) 1)
      (options.verifyInterval.getD 50) (options.actionInterval.getD 100)
      (options.actionName.getD "action") (options.maxAttempts.getD 3)
      action verify (options.maxAttempts.getD 3).toNat 0
    simpa using h
  · intro i r0 hr0
    obtain ⟨hi, -⟩ := List.get?_eq_some.mp hr0
    have hg := executeLoop_get (max (options.timeout.getD 1000) 1)
      (options.verifyInterval.getD 50) (options.actionInterval.getD 100)
      (options.actionName.getD "action") (options.maxAttempts.getD 3)
      action verify (options.maxAttempts.getD 3).toNat 0 i hi
    rw [Nat.zero_add] at hg
    rw [hg] at hr0
    injection hr0 with h2
    rw [← h2]
    exact attemptEntry_polls_le (max (options.timeout.getD 1000) 1)
      (options.verifyInterval.getD 50) (options.actionInterval.getD 100)
      action verify (options.maxAttempts.getD 3).toNat i
  · intro i hlt
    obtain ⟨h1, h2⟩ := (executeLoop_cont (max (options.timeout.getD 1000) 1)
      (options.verifyInterval.getD 50) (options.actionInterval.getD 100)
      (options.actionName.getD "action") (options.maxAttempts.getD 3)
      action verify (options.maxAttempts.getD 3).toNat 0 i).mp hlt
    have hg := executeLoop_get (max (options.timeout.getD 1000) 1)
      (options.verifyInterval.getD 50) (options.actionInterval.getD 100)
      (options.actionName.getD "action") (options.maxAttempts.getD 3)
      action verify (options.maxAttempts.getD 3).toNat 0 i h1
    rw [Nat.zero_add] at hg h2
    exact ⟨attemptEntry (max (options.timeout.getD 1000) 1)
      (options.verifyInterval.getD 50) (options.actionInterval.getD 100)
      action verify (options.maxAttempts.getD 3).toNat i, hg,
      attemptEntry_slept (max (options.timeout.getD 1000) 1)
        (options.verifyInterval.getD 50) (options.actionInterval.getD 100)
        action verify (options.maxAttempts.getD 3).toNat i h2⟩

/-- C8 witness: a run with the default policy, an always-succeeding action
and an immediately-true verifier. -/
theorem c8_sequential_bounded_attempts_witness :
    (reliableAction (fun _ => (.ok () : Except Nat Unit))
        (fun _ _ => .ok true 0) ⟨none, none, none, none, none⟩).2.length ≤ 3 ∧
      (∀ i r0, (reliableAction (fun _ => (.ok () : Except Nat Unit))
          (fun _ _ => .ok true 0) ⟨none, none, none, none, none⟩).2.get? i =
            some r0 →
        r0.polls ≤ 1000) ∧
      (∀ i, i + 1 < (reliableAction (fun _ => (.ok () : Except Nat Unit))
          (fun _ _ => .ok true 0) ⟨none, none, none, none, none⟩).2.length →
        ∃ r0, (reliableAction (fun _ => (.ok () : Except Nat Unit))
            (fun _ _ => .ok true 0) ⟨none, none, none, none, none⟩).2.get? i =
              some r0 ∧
          (r0.actionThrew = true ∨ r0.vResult = some false)) :=
  c8_sequential_bounded_attempts (fun _ => .ok ()) (fun _ _ => .ok true 0)
    ⟨none, none, none, none, none⟩

/-- C9: `reliableAction` fails to settle — the awaited `verifyPromise`
never resolves because a verifier rejection escapes the `async` promise
executor without `resolve` being called, the per-attempt `catch` never
observes it, and no outcome is ever produced — exactly when some recorded
attempt made a verifier call that threw; conversely, whenever every
verifier call actually made returns, the call produces an outcome. -/
theorem c9_verifier_throw_never_settles {E : Type}
    (action : Nat → Except E Unit) (verify : Nat → Nat → VerifyRes)
    (options : RetryOptions) :
    (reliableAction action verify options).1 = .hang ↔
      ∃ i r0, (reliableAction action verify options).2.get? i = some r0 ∧
        ∃ x, x < r0.polls ∧ verify i x = .throws := by
  unfold reliableAction
  rw [executeLoop_hang_iff]
  constructor
  · rintro ⟨rel, hlen, hok, hnone⟩
    rw [Nat.zero_add] at hok hnone
    have hg := executeLoop_get (max (options.timeout.getD 1000) 1)
      (options.verifyInterval.getD 50) (options.actionInterval.getD 100)
      (options.actionName.getD "action") (options.maxAttempts.getD 3)
      action verify (options.maxAttempts.getD 3).toNat 0 rel hlen
    rw [Nat.zero_add] at hg
    refine ⟨rel, _, hg, ?_⟩
    rw [attemptEntry_polls_ok (max (options.timeout.getD 1000) 1)
      (options.verifyInterval.getD 50) (options.actionInterval.getD 100)
      action verify (options.maxAttempts.getD 3).toNat rel hok]
    obtain ⟨x, -, hx1, hx2⟩ := (verifyLoop_none_iff
      (max (options.timeout.getD 1000) 1) (options.verifyInterval.getD 50)
      (verify rel) 0 0).mp hnone
    exact ⟨x, hx1, hx2⟩
  · rintro ⟨i, r0, hr0, x, hx, hthrow⟩
    obtain ⟨hi, -⟩ := List.get?_eq_some.mp hr0
    have hg := executeLoop_get (max (options.timeout.getD 1000) 1)
      (options.verifyInterval.getD 50) (options.actionInterval.getD 100)
      (options.actionName.getD "action") (options.maxAttempts.getD 3)
      action verify (options.maxAttempts.getD 3).toNat 0 i hi
    rw [Nat.zero_add] at hg
    rw [hg] at hr0
    injection hr0 with h2
    subst h2
    rcases hae : action i with e | u
    · rw [attemptEntry_polls_error (max (options.timeout.getD 1000) 1)
        (options.verifyInterval.getD 50) (options.actionInterval.getD 100)
        action verify (options.maxAttempts.getD 3).toNat i e hae] at hx
      omega
    · cases u
      rw [attemptEntry_polls_ok (max (options.timeout.getD 1000) 1)
        (options.verifyInterval.getD 50) (options.actionInterval.getD 100)
        action verify (options.maxAttempts.getD 3).toNat i hae] at hx
      have hnone : (verifyLoop (max (options.timeout.getD 1000) 1)
          (options.verifyInterval.getD 50) (verify i) 0 0).1 = none :=
        (verifyLoop_none_iff (max (options.timeout.getD 1000) 1)
          (options.verifyInterval.getD 50) (verify i) 0 0).mpr
          ⟨x, Nat.zero_le x, hx, hthrow⟩
      refine ⟨i, hi, ?_, ?_⟩
      · rw [Nat.zero_add]
        exact hae
      · rw [Nat.zero_add]
        exact hnone

/-- C9 witness: a verifier that always throws makes the default-policy run
hang, and the characterization identifies the throwing poll. -/
theorem c9_verifier_throw_never_settles_witness :
    (reliableAction (fun _ => (.ok () : Except Nat Unit))
        (fun _ _ => .throws) ⟨none, none, none, none, none⟩).1 = .hang ↔
      ∃ i r0, (reliableAction (fun _ => (.ok () : Except Nat Unit))
          (fun _ _ => .throws) ⟨none, none, none, none, none⟩).2.get? i =
            some r0 ∧
        ∃ x, x < r0.polls ∧
          (fun (_ _ : Nat) => (VerifyRes.throws : VerifyRes)) i x = .throws :=
  c9_verifier_throw_never_settles (fun _ => .ok ()) (fun _ _ => .throws)
    ⟨none, none, none, none, none⟩

/-- C10: When the supplied `maxAttempts` is zero or negative, the loop
condition `i < maxAttempts` fails at once: neither the action nor the
verifier is ever invoked (the trace is empty) and `reliableAction`
immediately throws the exhaustion-style error reporting the action name
and the given attempt count. -/
theorem c10_nonpositive_max_attempts {E : Type}
    (action : Nat → Except E Unit) (verify : Nat → Nat → VerifyRes)
    (options : RetryOptions) (h : options.maxAttempts.getD 3 ≤ 0) :
    reliableAction action verify options =
      (.exhausted (exhaustedMsg (options.actionName.getD "action")
        (options.maxAttempts.getD 3)), []) := by
  unfold reliableAction
  rw [executeLoop, dif_neg (by omega)]

/-- C10 witness: `maxAttempts = -2`: no attempt record, and the error
message reports `-2` attempts. -/
theorem c10_nonpositive_max_attempts_witness :
    reliableAction (fun _ => (.ok () : Except Nat Unit))
        (fun _ _ => .ok false 0) ⟨some (-2), none, none, none, none⟩ =
      (.exhausted (exhaustedMsg "action" (-2)), []) :=
  c10_nonpositive_max_attempts (fun _ => .ok ()) (fun _ _ => .ok false 0)
    ⟨some (-2), none, none, none, none⟩ (by decide)

end PW
